import Mathlib

/-!
Verification development for the whale-search wallet-enrichment pipeline
(src/index.js).  The JavaScript source is embedded shallowly: the two
text extractors are modelled as executable functions over lists of
characters reproducing the exact semantics of the regular expressions in
the source (greedy quantifiers, ordered alternation, leftmost match,
case-insensitive ASCII comparison), and the retry wrapper plus the
orchestration loop are modelled as pure functions that thread an
explicit event trace for every observable action (navigation,
verification checks, human prompts, sleeps, screenshots, sheet writes).
-/

namespace Whale

/-! ### Character classes

The JavaScript regexes use the classes d (ASCII digits), s (JavaScript
whitespace) and the literal characters comma, dollar, dot, plus, minus.
Both classes are reproduced as explicit finite disjunctions of character
equalities, exactly the sets the JavaScript engine uses (the regexes are
compiled without the unicode flag, so d is [0-9] and the
case-insensitive flag only folds ASCII letters). -/

def digitChars : List Char :=
  ['0', '1', '2', '3', '4', '5', '6', '7', '8', '9']

def isDigitB (c : Char) : Bool :=
  decide (c ∈ digitChars)

def isDigitOrComma (c : Char) : Bool :=
  isDigitB c || c = ','

def wsChars : List Char :=
  [' ', '\t', '\n', '\u000b', '\u000c', '\r',
   '\u00a0', '\u1680', '\u2000', '\u2001', '\u2002', '\u2003',
   '\u2004', '\u2005', '\u2006', '\u2007', '\u2008', '\u2009',
   '\u200a', '\u2028', '\u2029', '\u202f', '\u205f', '\u3000',
   '\ufeff']

def isJsWs (c : Char) : Bool :=
  decide (c ∈ wsChars)

/-! ### Whitespace normalisation (textContent.replace on s-runs, then trim)

The activities extractor first computes
cleanText = textContent.replace(every maximal whitespace run by one
space).trim().  The auxiliary carries a flag recording whether the
previous character was whitespace, so each maximal run emits exactly one
space. -/

def collapseWsAux : Bool → List Char → List Char
  | _, [] => []
  | inWs, c :: cs =>
    if isJsWs c then
      if inWs then collapseWsAux true cs else ' ' :: collapseWsAux true cs
    else c :: collapseWsAux false cs

def jsTrim (cs : List Char) : List Char :=
  ((cs.dropWhile isJsWs).reverse.dropWhile isJsWs).reverse

def cleanText (s : String) : List Char :=
  jsTrim (collapseWsAux false s.data)

/-! ### Matcher combinators

Each regex of the source is translated into a matcher over List Char.
All quantified subpatterns in the activities regexes are followed by a
character class disjoint from the quantified class, so greedy matching
is exact maximal munch there; the Holdings PnL regex needs genuine
backtracking for its greedy dollar-free gap, which tailMatch implements
directly (longest gap tried first, exactly the backtracking order of the
JavaScript engine). -/

/-- Match a literal pattern (given in lowercase) case-insensitively,
returning the remaining input. -/
def eatCI : List Char → List Char → Option (List Char)
  | [], cs => some cs
  | _ :: _, [] => none
  | p :: ps, c :: cs => if c.toLower = p then eatCI ps cs else none

/-- Match one or more whitespace characters, maximal munch. -/
def eatWs1 : List Char → Option (List Char)
  | [] => none
  | c :: cs => if isJsWs c then some (cs.dropWhile isJsWs) else none

/-- Match one or more characters of a class, maximal munch; returns the
matched run and the remaining input. -/
def eatClass1 (p : Char → Bool) : List Char → Option (List Char × List Char)
  | [] => none
  | c :: cs => if p c then some (c :: cs.takeWhile p, cs.dropWhile p) else none

/-- Ordered alternation y or ies, case-insensitively. -/
def eatYIes (cs : List Char) : Option (List Char) :=
  match eatCI ['y'] cs with
  | some r => some r
  | none => eatCI ['i', 'e', 's'] cs

/-- Matcher for the regex Total s+ group-of-digits-or-commas s+ activit
then y or ies, case-insensitive, anchored at the start of the input;
returns the captured group. -/
def matchTotalAt (cs : List Char) : Option (List Char) :=
  match eatCI ['t', 'o', 't', 'a', 'l'] cs with
  | none => none
  | some r1 =>
  match eatWs1 r1 with
  | none => none
  | some r2 =>
  match eatClass1 isDigitOrComma r2 with
  | none => none
  | some (g, r3) =>
  match eatWs1 r3 with
  | none => none
  | some r4 =>
  match eatCI ['a', 'c', 't', 'i', 'v', 'i', 't'] r4 with
  | none => none
  | some r5 =>
  match eatYIes r5 with
  | none => none
  | some _ => some g

/-- Matcher for More s+ than s+ group s+ activit then y or ies. -/
def matchMoreAt (cs : List Char) : Option (List Char) :=
  match eatCI ['m', 'o', 'r', 'e'] cs with
  | none => none
  | some r0 =>
  match eatWs1 r0 with
  | none => none
  | some r0b =>
  match eatCI ['t', 'h', 'a', 'n'] r0b with
  | none => none
  | some r1 =>
  match eatWs1 r1 with
  | none => none
  | some r2 =>
  match eatClass1 isDigitOrComma r2 with
  | none => none
  | some (g, r3) =>
  match eatWs1 r3 with
  | none => none
  | some r4 =>
  match eatCI ['a', 'c', 't', 'i', 'v', 'i', 't'] r4 with
  | none => none
  | some r5 =>
  match eatYIes r5 with
  | none => none
  | some _ => some g

/-- Test for Total s+ 0 s+ activit then y or ies (the explicit
zero-activities check of the source). -/
def matchZeroAt (cs : List Char) : Bool :=
  match eatCI ['t', 'o', 't', 'a', 'l'] cs with
  | none => false
  | some r1 =>
  match eatWs1 r1 with
  | none => false
  | some r2 =>
  match r2 with
  | [] => false
  | c :: r3 =>
  if c = '0' then
    match eatWs1 r3 with
    | none => false
    | some r4 =>
    match eatCI ['a', 'c', 't', 'i', 'v', 'i', 't'] r4 with
    | none => false
    | some r5 => (eatYIes r5).isSome
  else false

/-! ### The Holdings PnL regex

Holdings s+ PnL [^dollar]* dollar? ( [-+]? [digit-or-comma]+ dot? digit* )
with all quantifiers greedy.  The gap [^dollar]* needs backtracking: the
engine first extends the gap as far as possible (it can never step over
a dollar sign) and then retreats one character at a time until the rest
of the pattern matches. -/

/-- The capturing group [-+]? [digit-or-comma]+ dot? digit*, greedy.
Nothing follows the group in the pattern, so maximal munch is exact. -/
def groupMatch (cs : List Char) : Option (List Char) :=
  let sr : List Char × List Char :=
    match cs with
    | c :: rest => if c = '-' || c = '+' then ([c], rest) else ([], cs)
    | [] => ([], [])
  let ds := sr.2.takeWhile isDigitOrComma
  if ds.isEmpty then none
  else
    let r2 := sr.2.dropWhile isDigitOrComma
    let df : List Char :=
      match r2 with
      | '.' :: r3 => '.' :: r3.takeWhile isDigitB
      | _ => []
    some (sr.1 ++ ds ++ df)

/-- dollar? then the group: the optional dollar is greedy, so when the
input starts with a dollar sign the engine first tries to consume it. -/
def dollarGroup (cs : List Char) : Option (List Char) :=
  match cs with
  | '$' :: rest =>
    (match groupMatch rest with
     | some g => some g
     | none => groupMatch cs)
  | _ => groupMatch cs

/-- Greedy [^dollar]* then dollarGroup, with backtracking: prefer to put
the current character into the gap and only on failure stop the gap
here.  A dollar sign forces the gap to stop. -/
def tailMatch : List Char → Option (List Char)
  | [] => dollarGroup []
  | c :: rest =>
    if c = '$' then dollarGroup (c :: rest)
    else
      match tailMatch rest with
      | some g => some g
      | none => dollarGroup (c :: rest)

/-- The label part Holdings s+ PnL, anchored at the start of the input. -/
def matchLabelAt (cs : List Char) : Option (List Char) :=
  match eatCI ['h', 'o', 'l', 'd', 'i', 'n', 'g', 's'] cs with
  | none => none
  | some r1 =>
  match eatWs1 r1 with
  | none => none
  | some r2 => eatCI ['p', 'n', 'l'] r2

/-- Matcher for Holdings s+ PnL then the gap-dollar-group tail,
anchored at the start of the input. -/
def matchHoldingsAt (cs : List Char) : Option (List Char) :=
  match matchLabelAt cs with
  | none => none
  | some r3 => tailMatch r3

/-! ### Scanning for the leftmost match -/

/-- Leftmost-match search: try the anchored matcher at every start
position from left to right, first success wins (the semantics of
String.prototype.match without the global flag). -/
def scanFirstO (m : List Char → Option β) : List Char → Option β
  | [] => m []
  | c :: cs =>
    match m (c :: cs) with
    | some b => some b
    | none => scanFirstO m cs

/-- Does some suffix satisfy the test (regex test semantics). -/
def anySuffixB (p : List Char → Bool) : List Char → Bool
  | [] => p []
  | c :: cs => p (c :: cs) || anySuffixB p cs

/-- String.prototype.includes as substring containment. -/
def includesSub (hay needle : List Char) : Bool :=
  anySuffixB (fun s => needle.isPrefixOf s) hay

/-- Comma removal, match-1.replace of commas by nothing. -/
def stripCommas (cs : List Char) : List Char :=
  cs.filter (fun c => c ≠ ',')

/-! ### The two extractors (extractSolscanActivities,
extractJupiterHoldingsPnl)

Both are modelled as pure functions of the page body text (and, for the
activities extractor, the page URL); the browser reads in the source
(textContent, page.url) become the function arguments.  Error returns
model thrown exceptions, carrying the exact message of the source. -/

def solscanErrMsg : String := "Unable to locate Solscan activities section on page."

def jupiterErrMsg : String := "Unable to locate Holdings PnL value on page."

/-- Shallow embedding of extractSolscanActivities: normalise whitespace,
try the Total pattern then the More-than pattern (first match wins,
commas stripped from the captured number), then the explicit
Total-0 test, then the URL hash-activities fallback, else throw. -/
def extractSolscanActivities (textContent url : String) : Except String String :=
  let clean := cleanText textContent
  match scanFirstO matchTotalAt clean with
  | some g => .ok (String.mk (stripCommas g))
  | none =>
  match scanFirstO matchMoreAt clean with
  | some g => .ok (String.mk (stripCommas g))
  | none =>
  if anySuffixB matchZeroAt clean then .ok "0"
  else if includesSub url.data "#activities".data then .ok "0"
  else .error solscanErrMsg

/-- Shallow embedding of extractJupiterHoldingsPnl: leftmost match of
the Holdings PnL regex on the raw body text, returning the captured
group trimmed. -/
def extractJupiterHoldingsPnl (textContent : String) : Except String String :=
  match scanFirstO matchHoldingsAt textContent.data with
  | some g => .ok (String.mk (jsTrim g))
  | none => .error jupiterErrMsg

/-! ### Observable events of the pipeline

Every externally observable action of the run loop is an event:
navigations, verification-detector consultations, human-intervention
prompts, the two kinds of sleep calls (the rate-limit pause and the
retry backoff, which are distinct call sites in the source), successful
screenshot captures with their log line, sheet writes, the skip log
lines, and the fatal log of the top-level handler. -/

inductive Ev where
  | navigate (url : String)
  | verifyCheck
  | prompt (label : String)
  | extractActs
  | extractPnl
  | rateSleep (ms : Nat)
  | backoffSleep (ms : Nat)
  | screenshotSaved (wallet label : String)
  | write (rowIndex : Nat) (activities pnl : String)
  | logSkipEmpty (rowIndex : Nat)
  | logSkipProcessed (rowIndex : Nat)
  | logFatal
  deriving DecidableEq, Repr

/-- The literal backoff base of the sleep call in withRetries:
sleep(2000 * attempt). -/
def backoffBaseMs : Nat := 2000

/-- Outcome of the guarded retry wrapper: the events it emitted, the
number of task invocations, the number of failure-hook invocations, and
the propagated result.  The error carries none when the loop never ran
(attempts = 0, the source would throw undefined). -/
structure FetchOut (α : Type) where
  events : List Ev
  calls : Nat
  hookCalls : Nat
  result : Except (Option String) α
  deriving Repr

/-- Shallow embedding of the withRetries loop body, recursing on the
number of remaining attempts.  Each failed attempt logs, sleeps
2000 * attempt (including after the final attempt) and continues; after
the last attempt the recorded last error is thrown. -/
def withRetriesGo (task : Nat → List Ev × Except String α) (attempt : Nat)
    (lastError : Option String) : Nat → List Ev × Nat × Except (Option String) α
  | 0 => ([], 0, .error lastError)
  | r + 1 =>
    let (evs, res) := task attempt
    match res with
    | .ok a => (evs, 1, .ok a)
    | .error e =>
      let (evs2, n, out) := withRetriesGo task (attempt + 1) (some e) r
      (evs ++ Ev.backoffSleep (backoffBaseMs * attempt) :: evs2, n + 1, out)

/-- withRetries(task, attempts): attempts numbered from 1. -/
def withRetries (task : Nat → List Ev × Except String α) (attempts : Nat) :
    List Ev × Nat × Except (Option String) α :=
  withRetriesGo task 1 none attempts

/-- The catch combinator wrapped around each withRetries call in run:
on rejection it awaits captureFailureScreenshot and rethrows the
original error.  When the capture itself fails, its rejection escapes
the catch callback before the rethrow, so the capture error is the one
propagated; on capture success the saved-screenshot log line is emitted
and the original error is rethrown. -/
def fetchGuarded (task : Nat → List Ev × Except String α) (attempts : Nat)
    (wallet label : String) (capture : Except String Unit) : FetchOut α :=
  let (evs, n, out) := withRetries task attempts
  match out with
  | .ok a => ⟨evs, n, 0, .ok a⟩
  | .error e =>
    match capture with
    | .ok _ => ⟨evs ++ [Ev.screenshotSaved wallet label], n, 1, .error e⟩
    | .error ce => ⟨evs, n, 1, .error (some ce)⟩

/-- A task with no observable events of its own, for the claims about
the retry controller in isolation. -/
def pureTask (f : Nat → Except String α) : Nat → List Ev × Except String α :=
  fun k => ([], f k)

/-! ### The orchestrator (run)

The environment the browser provides is an oracle: for every attempt of
every metric fetch it supplies the navigation outcome, the result of the
verification detector, and the body text and URL the page shows when the
extractor reads it. -/

structure Config where
  rateLimitMs : Nat
  maxRetries : Nat
  timeoutMs : Nat
  deriving Repr

structure WalletEntry where
  wallet : Option String
  activities : Option String
  holdingsPnl : Option String
  rowIndex : Nat
  deriving Repr

/-- JavaScript truthiness for the optional string cells: undefined and
the empty string are falsy. -/
def truthy : Option String → Bool
  | none => false
  | some s => s ≠ ""

structure AttemptWorld where
  navError : Option String
  verify : Bool
  body : String
  url : String

structure WalletWorld where
  solWorlds : Nat → AttemptWorld
  solCapture : Except String Unit
  jupWorlds : Nat → AttemptWorld
  jupCapture : Except String Unit
  writeOutcome : Except String Unit

def solscanUrl (wallet : String) : String :=
  "https://solscan.io/account/" ++ wallet ++ "#activities"

def jupiterUrl (wallet : String) : String :=
  "https://jup.ag/portfolio/" ++ wallet

/-- One attempt of the Solscan task: goto, waitIfVerification (one
detector consultation, then a blocking prompt if positive, after which
control proceeds directly), then the activities extractor. -/
def solscanStep (wallet : String) (w : AttemptWorld) : List Ev × Except String String :=
  match w.navError with
  | some e => ([Ev.navigate (solscanUrl wallet)], .error e)
  | none =>
    ([Ev.navigate (solscanUrl wallet), Ev.verifyCheck] ++
       (if w.verify then [Ev.prompt "Solscan"] else []) ++ [Ev.extractActs],
     extractSolscanActivities w.body w.url)

/-- One attempt of the Jupiter task. -/
def jupiterStep (wallet : String) (w : AttemptWorld) : List Ev × Except String String :=
  match w.navError with
  | some e => ([Ev.navigate (jupiterUrl wallet)], .error e)
  | none =>
    ([Ev.navigate (jupiterUrl wallet), Ev.verifyCheck] ++
       (if w.verify then [Ev.prompt "Jupiter"] else []) ++ [Ev.extractPnl],
     extractJupiterHoldingsPnl w.body)

def fetchActivities (cfg : Config) (wallet : String) (w : WalletWorld) : FetchOut String :=
  fetchGuarded (fun k => solscanStep wallet (w.solWorlds k)) cfg.maxRetries
    wallet "solscan" w.solCapture

def fetchPnl (cfg : Config) (wallet : String) (w : WalletWorld) : FetchOut String :=
  fetchGuarded (fun k => jupiterStep wallet (w.jupWorlds k)) cfg.maxRetries
    wallet "jupiter" w.jupCapture

/-- One iteration of the wallet loop of run: skip on missing wallet,
skip on both result cells populated, otherwise fetch activities, pause,
fetch PnL, write the row, pause.  An error anywhere aborts the
iteration with that error. -/
def processWallet (cfg : Config) (entry : WalletEntry) (w : WalletWorld) :
    List Ev × Except (Option String) Unit :=
  match entry.wallet with
  | none => ([Ev.logSkipEmpty entry.rowIndex], .ok ())
  | some wa =>
    if wa = "" then ([Ev.logSkipEmpty entry.rowIndex], .ok ())
    else if truthy entry.activities && truthy entry.holdingsPnl then
      ([Ev.logSkipProcessed entry.rowIndex], .ok ())
    else
      let fa := fetchActivities cfg wa w
      match fa.result with
      | .error e => (fa.events, .error e)
      | .ok av =>
        let fb := fetchPnl cfg wa w
        match fb.result with
        | .error e =>
          (fa.events ++ Ev.rateSleep cfg.rateLimitMs :: fb.events, .error e)
        | .ok pv =>
          match w.writeOutcome with
          | .error e =>
            (fa.events ++ Ev.rateSleep cfg.rateLimitMs :: fb.events, .error (some e))
          | .ok _ =>
            (fa.events ++ Ev.rateSleep cfg.rateLimitMs :: fb.events ++
               [Ev.write entry.rowIndex av pv, Ev.rateSleep cfg.rateLimitMs],
             .ok ())

/-- The wallet loop: strictly sequential, aborting on the first error
(there is no catch inside the loop). -/
def runPairs (cfg : Config) : List (WalletEntry × WalletWorld) →
    List Ev × Except (Option String) Unit
  | [] => ([], .ok ())
  | (entry, w) :: rest =>
    let (evs, res) := processWallet cfg entry w
    match res with
    | .ok _ =>
      let (evs2, res2) := runPairs cfg rest
      (evs ++ evs2, res2)
    | .error e => (evs, .error e)

/-- The whole process: run the loop; the top-level catch logs a fatal
line and exits with code 1, otherwise the process exits 0. -/
def runMain (cfg : Config) (pairs : List (WalletEntry × WalletWorld)) :
    List Ev × Nat :=
  match runPairs cfg pairs with
  | (evs, .ok _) => (evs, 0)
  | (evs, .error _) => (evs ++ [Ev.logFatal], 1)

/-! ### Spec-side notions used to state the claims -/

/-- The chunk t matches the lowercase pattern ps case-insensitively. -/
def ciEq : List Char → List Char → Bool
  | [], [] => true
  | p :: ps, c :: cs => c.toLower = p && ciEq ps cs
  | _, _ => false

def totalLits : List Char := ['t', 'o', 't', 'a', 'l']

def actLits : List Char := ['a', 'c', 't', 'i', 'v', 'i', 't']

/-- Spec-side reading of what it means for a text to start with a phrase
of the form Total, whitespace, number with optional separators,
whitespace, activity or activities, case-insensitively, with g the
number chunk.  Used to compare the extractor against the wording of the
specification. -/
def IsTotalPhraseAt (cs g : List Char) : Prop :=
  ∃ t w1 w2 a y rest,
    cs = t ++ w1 ++ g ++ w2 ++ a ++ y ++ rest ∧
    ciEq totalLits t = true ∧
    w1 ≠ [] ∧ w1.all isJsWs = true ∧
    g ≠ [] ∧ g.all isDigitOrComma = true ∧
    w2 ≠ [] ∧ w2.all isJsWs = true ∧
    ciEq actLits a = true ∧
    (ciEq ['y'] y = true ∨ ciEq ['i', 'e', 's'] y = true)

/-- Spec-side: somewhere in the text a Total-activities phrase occurs. -/
def spec_containsTotalPhrase (cs : List Char) : Prop :=
  ∃ pre suf g, cs = pre ++ suf ∧ IsTotalPhraseAt suf g

/-- Spec-side: the Holdings PnL label occurs somewhere in the text. -/
def hasHoldingsLabel (cs : List Char) : Bool :=
  anySuffixB (fun s => (matchLabelAt s).isSome) cs

/-- The backoff sleeps emitted by attempts a, a+1, ... over j failures. -/
def backoffEvs (a : Nat) : Nat → List Ev
  | 0 => []
  | j + 1 => Ev.backoffSleep (backoffBaseMs * a) :: backoffEvs (a + 1) j

/-! ### Trace predicates used to state the temporal claims -/

def isNavEv : Ev → Bool
  | Ev.navigate _ => true
  | _ => false

def isExtractEv : Ev → Bool
  | Ev.extractActs => true
  | Ev.extractPnl => true
  | _ => false

def isRateSleepEv : Ev → Bool
  | Ev.rateSleep _ => true
  | _ => false

def isWriteEv : Ev → Bool
  | Ev.write _ _ _ => true
  | _ => false

def countNav (evs : List Ev) : Nat := evs.countP isNavEv

def countExtract (evs : List Ev) : Nat := evs.countP isExtractEv

def countRate (evs : List Ev) : Nat := evs.countP isRateSleepEv

def countWrites (evs : List Ev) : Nat := evs.countP isWriteEv

/-- In the given trace, does a navigation occur before the first
extraction event (vacuously true when no extraction follows)? -/
def navReachedFirst : List Ev → Bool
  | [] => true
  | Ev.navigate _ :: _ => true
  | Ev.extractActs :: _ => false
  | Ev.extractPnl :: _ => false
  | _ :: rest => navReachedFirst rest

/-- The re-navigation property the claim about verification resumption
asserts: after every human-intervention prompt, a navigation occurs
before the next extraction event. -/
def renavAfterPrompts : List Ev → Bool
  | [] => true
  | Ev.prompt _ :: rest => navReachedFirst rest && renavAfterPrompts rest
  | _ :: rest => renavAfterPrompts rest

def rateBeforeWriteAux : Ev → List Ev → Bool
  | _, [] => true
  | prev, e :: rest =>
    (if isWriteEv e then isRateSleepEv prev else true) && rateBeforeWriteAux e rest

/-- The pause placement the rate-limiting claim asserts for the write:
every sheet write is immediately preceded by a rate-limit pause. -/
def rateBeforeEveryWrite : List Ev → Bool
  | [] => true
  | e :: rest => !isWriteEv e && rateBeforeWriteAux e rest

/-! ### Concrete configurations and worlds for the closed theorems -/

def cexCfg : Config := ⟨2000, 3, 45000⟩

def cfg7 : Config := ⟨7, 3, 7⟩

def cfg1 : Config := ⟨2000, 1, 45000⟩

def okWorldA : AttemptWorld :=
  ⟨none, false, "Total 5 activities", "https://solscan.io/account/w1#activities"⟩

def verifyWorldA : AttemptWorld :=
  ⟨none, true, "Total 5 activities", "https://solscan.io/account/w1#activities"⟩

def okWorldB : AttemptWorld :=
  ⟨none, false, "Holdings PnL $9.5", "https://jup.ag/portfolio/w1"⟩

def extractFailWorldA : AttemptWorld := ⟨none, false, "zzz", "u"⟩

def navFailWorld : AttemptWorld := ⟨some "nav timeout", false, "", ""⟩

def cexWorldC7 : WalletWorld :=
  ⟨fun _ => verifyWorldA, .ok (), fun _ => okWorldB, .ok (), .ok ()⟩

def cexWorldC8 : WalletWorld :=
  ⟨fun _ => okWorldA, .ok (), fun _ => okWorldB, .ok (), .ok ()⟩

def cexWorldC9 : WalletWorld :=
  ⟨fun _ => extractFailWorldA, .error "screenshot failed", fun _ => okWorldB, .ok (), .ok ()⟩

def cexWorldC4 : WalletWorld :=
  ⟨fun _ => navFailWorld, .ok (), fun _ => okWorldB, .ok (), .ok ()⟩

def cexEntry : WalletEntry := ⟨some "w1", none, none, 2⟩

def verifyFailWorldA : AttemptWorld := ⟨none, true, "zzz", "u"⟩

-- END-DEFS

/-! ### Facts about the character classes -/

lemma mem_wsChars_of_isJsWs {c : Char} (h : isJsWs c = true) : c ∈ wsChars := by
  simpa [isJsWs] using h

lemma mem_digitChars_of_isDigitB {c : Char} (h : isDigitB c = true) : c ∈ digitChars := by
  simpa [isDigitB] using h

lemma isDigitOrComma_elim {c : Char} (h : isDigitOrComma c = true) :
    isDigitB c = true ∨ c = ',' := by
  have h2 := h
  simp only [isDigitOrComma, Bool.or_eq_true, decide_eq_true_eq] at h2
  exact h2

lemma ws_toLower_self {c : Char} (h : isJsWs c = true) : c.toLower = c := by
  have hm := mem_wsChars_of_isJsWs h
  fin_cases hm <;> decide

lemma digitOrComma_toLower_self {c : Char} (h : isDigitOrComma c = true) :
    c.toLower = c := by
  rcases isDigitOrComma_elim h with hd | hc
  · have hm := mem_digitChars_of_isDigitB hd
    fin_cases hm <;> decide
  · subst hc; decide

lemma ws_not_digitOrComma {c : Char} (h : isJsWs c = true) :
    isDigitOrComma c = false := by
  have hm := mem_wsChars_of_isJsWs h
  fin_cases hm <;> decide

lemma digitOrComma_not_ws {c : Char} (h : isDigitOrComma c = true) :
    isJsWs c = false := by
  rcases isDigitOrComma_elim h with hd | hc
  · have hm := mem_digitChars_of_isDigitB hd
    fin_cases hm <;> decide
  · subst hc; decide

lemma not_ws_of_toLower {c l : Char} (hl : c.toLower = l) (hns : isJsWs l = false) :
    isJsWs c = false := by
  cases hb : isJsWs c
  · rfl
  · have hc := ws_toLower_self hb
    rw [hc] at hl
    subst hl
    rw [hb] at hns
    exact hns

lemma not_digitOrComma_of_toLower {c l : Char} (hl : c.toLower = l)
    (hns : isDigitOrComma l = false) : isDigitOrComma c = false := by
  cases hb : isDigitOrComma c
  · rfl
  · have hc := digitOrComma_toLower_self hb
    rw [hc] at hl
    subst hl
    rw [hb] at hns
    exact hns

/-! ### takeWhile and dropWhile over a run followed by a blocked rest -/

lemma takeWhile_append_all {p : Char → Bool} :
    ∀ (w r : List Char), w.all p = true → (∀ c, r.head? = some c → p c = false) →
      (w ++ r).takeWhile p = w
  | [], r, _, hr => by
    cases r with
    | nil => rfl
    | cons c r2 => simp [List.takeWhile_cons, hr c rfl]
  | a :: w2, r, hw, hr => by
    rw [List.all_cons, Bool.and_eq_true] at hw
    simp [List.takeWhile_cons, hw.1, takeWhile_append_all w2 r hw.2 hr]

lemma dropWhile_append_all {p : Char → Bool} :
    ∀ (w r : List Char), w.all p = true → (∀ c, r.head? = some c → p c = false) →
      (w ++ r).dropWhile p = r
  | [], r, _, hr => by
    cases r with
    | nil => rfl
    | cons c r2 => simp [List.dropWhile_cons, hr c rfl]
  | a :: w2, r, hw, hr => by
    rw [List.all_cons, Bool.and_eq_true] at hw
    simp [List.dropWhile_cons, hw.1, dropWhile_append_all w2 r hw.2 hr]

/-! ### Case-insensitive literal equality and the eatCI combinator -/

lemma eatCI_sound :
    ∀ (ps cs r : List Char), eatCI ps cs = some r →
      ∃ t, cs = t ++ r ∧ ciEq ps t = true
  | [], cs, r, h => by
    refine ⟨[], ?_, rfl⟩
    simpa [eatCI] using h
  | p :: ps, [], r, h => by simp [eatCI] at h
  | p :: ps, c :: cs, r, h => by
    simp only [eatCI] at h
    by_cases hc : c.toLower = p
    · rw [if_pos hc] at h
      obtain ⟨t, ht, hci⟩ := eatCI_sound ps cs r h
      exact ⟨c :: t, by simp [ht], by simp [ciEq, hc, hci]⟩
    · rw [if_neg hc] at h
      exact absurd h (by simp)

lemma eatCI_complete :
    ∀ (ps t r : List Char), ciEq ps t = true → eatCI ps (t ++ r) = some r
  | [], [], r, _ => rfl
  | [], _ :: _, r, h => by simp [ciEq] at h
  | _ :: _, [], r, h => by simp [ciEq] at h
  | p :: ps, c :: t, r, h => by
    rw [ciEq, Bool.and_eq_true, decide_eq_true_eq] at h
    simp [eatCI, h.1, eatCI_complete ps t r h.2]

lemma eatCI_head {p : Char} {ps cs r : List Char} (h : eatCI (p :: ps) cs = some r) :
    ∃ c cs2, cs = c :: cs2 ∧ c.toLower = p := by
  cases cs with
  | nil => simp [eatCI] at h
  | cons c cs2 =>
    simp only [eatCI] at h
    by_cases hc : c.toLower = p
    · exact ⟨c, cs2, rfl, hc⟩
    · rw [if_neg hc] at h
      exact absurd h (by simp)

/-! ### eatWs1 and eatClass1 -/

lemma eatWs1_sound {cs r : List Char} (h : eatWs1 cs = some r) :
    ∃ w, cs = w ++ r ∧ w ≠ [] ∧ w.all isJsWs = true := by
  cases cs with
  | nil => simp [eatWs1] at h
  | cons c cs2 =>
    simp only [eatWs1] at h
    by_cases hc : isJsWs c
    · rw [if_pos hc] at h
      refine ⟨c :: cs2.takeWhile isJsWs, ?_, by simp, ?_⟩
      · have := List.takeWhile_append_dropWhile (p := isJsWs) (l := cs2)
        simp only [Option.some.injEq] at h
        rw [List.cons_append, ← h, this]
      · simp [List.all_cons, hc, List.all_takeWhile]
    · rw [if_neg hc] at h
      exact absurd h (by simp)

lemma eatWs1_complete {w r : List Char} (hw : w ≠ []) (hall : w.all isJsWs = true)
    (hr : ∀ c, r.head? = some c → isJsWs c = false) : eatWs1 (w ++ r) = some r := by
  cases w with
  | nil => exact absurd rfl hw
  | cons a w2 =>
    rw [List.all_cons, Bool.and_eq_true] at hall
    simp only [List.cons_append, eatWs1, hall.1, if_pos]
    rw [dropWhile_append_all w2 r hall.2 hr]

lemma eatClass1_sound {p : Char → Bool} {cs g r : List Char}
    (h : eatClass1 p cs = some (g, r)) :
    cs = g ++ r ∧ g ≠ [] ∧ g.all p = true := by
  cases cs with
  | nil => simp [eatClass1] at h
  | cons c cs2 =>
    simp only [eatClass1] at h
    by_cases hc : p c
    · rw [if_pos hc] at h
      simp only [Option.some.injEq, Prod.mk.injEq] at h
      refine ⟨?_, ?_, ?_⟩
      · rw [← h.1, ← h.2]
        have := List.takeWhile_append_dropWhile (p := p) (l := cs2)
        rw [List.cons_append, this]
      · rw [← h.1]; simp
      · rw [← h.1]; simp [List.all_cons, hc, List.all_takeWhile]
    · rw [if_neg hc] at h
      exact absurd h (by simp)

lemma eatClass1_complete {p : Char → Bool} {g r : List Char} (hg : g ≠ [])
    (hall : g.all p = true) (hr : ∀ c, r.head? = some c → p c = false) :
    eatClass1 p (g ++ r) = some (g, r) := by
  cases g with
  | nil => exact absurd rfl hg
  | cons a g2 =>
    rw [List.all_cons, Bool.and_eq_true] at hall
    simp only [List.cons_append, eatClass1, hall.1, if_pos]
    rw [takeWhile_append_all g2 r hall.2 hr, dropWhile_append_all g2 r hall.2 hr]

/-! ### eatYIes -/

lemma eatYIes_sound {cs r : List Char} (h : eatYIes cs = some r) :
    ∃ y, cs = y ++ r ∧ (ciEq ['y'] y = true ∨ ciEq ['i', 'e', 's'] y = true) := by
  unfold eatYIes at h
  cases hy : eatCI ['y'] cs with
  | some r2 =>
    rw [hy] at h
    simp only [Option.some.injEq] at h
    subst h
    obtain ⟨t, ht, hci⟩ := eatCI_sound _ _ _ hy
    exact ⟨t, ht, Or.inl hci⟩
  | none =>
    rw [hy] at h
    obtain ⟨t, ht, hci⟩ := eatCI_sound _ _ _ h
    exact ⟨t, ht, Or.inr hci⟩

lemma eatYIes_complete_y {y r : List Char} (hy : ciEq ['y'] y = true) :
    eatYIes (y ++ r) = some r := by
  unfold eatYIes
  rw [eatCI_complete _ _ _ hy]

lemma eatYIes_complete_ies {y r : List Char} (hy : ciEq ['i', 'e', 's'] y = true) :
    eatYIes (y ++ r) = some r := by
  cases y with
  | nil => simp [ciEq] at hy
  | cons c y2 =>
    rw [ciEq, Bool.and_eq_true, decide_eq_true_eq] at hy
    unfold eatYIes
    have h1 : eatCI ['y'] ((c :: y2) ++ r) = none := by
      simp only [List.cons_append, eatCI, hy.1]
      simp
    rw [h1, eatCI_complete _ _ _ (by rw [ciEq, Bool.and_eq_true, decide_eq_true_eq]; exact hy)]

/-! ### Soundness and completeness of the Total matcher -/

lemma ciEq_head {p : Char} {ps t : List Char} (h : ciEq (p :: ps) t = true) :
    ∃ c t2, t = c :: t2 ∧ c.toLower = p := by
  cases t with
  | nil => simp [ciEq] at h
  | cons c t2 =>
    rw [ciEq, Bool.and_eq_true, decide_eq_true_eq] at h
    exact ⟨c, t2, rfl, h.1⟩

lemma matchTotalAt_sound {cs g : List Char} (h : matchTotalAt cs = some g) :
    IsTotalPhraseAt cs g := by
  unfold matchTotalAt at h
  cases h1 : eatCI ['t', 'o', 't', 'a', 'l'] cs with
  | none => simp only [h1] at h; exact absurd h (by simp)
  | some r1 =>
  simp only [h1] at h
  cases h2 : eatWs1 r1 with
  | none => simp only [h2] at h; exact absurd h (by simp)
  | some r2 =>
  simp only [h2] at h
  cases h3 : eatClass1 isDigitOrComma r2 with
  | none => simp only [h3] at h; exact absurd h (by simp)
  | some gr =>
  obtain ⟨g0, r3⟩ := gr
  simp only [h3] at h
  cases h4 : eatWs1 r3 with
  | none => simp only [h4] at h; exact absurd h (by simp)
  | some r4 =>
  simp only [h4] at h
  cases h5 : eatCI ['a', 'c', 't', 'i', 'v', 'i', 't'] r4 with
  | none => simp only [h5] at h; exact absurd h (by simp)
  | some r5 =>
  simp only [h5] at h
  cases h6 : eatYIes r5 with
  | none => simp only [h6] at h; exact absurd h (by simp)
  | some r6 =>
  simp only [h6, Option.some.injEq] at h
  subst h
  obtain ⟨t, ht, hcit⟩ := eatCI_sound _ _ _ h1
  obtain ⟨w1, hw1, hw1ne, hw1all⟩ := eatWs1_sound h2
  obtain ⟨hr2, hgne, hgall⟩ := eatClass1_sound h3
  obtain ⟨w2, hw2, hw2ne, hw2all⟩ := eatWs1_sound h4
  obtain ⟨a, ha, hcia⟩ := eatCI_sound _ _ _ h5
  obtain ⟨y, hy, hciy⟩ := eatYIes_sound h6
  refine ⟨t, w1, w2, a, y, r6, ?_, hcit, hw1ne, hw1all, hgne, hgall, hw2ne, hw2all, hcia, hciy⟩
  rw [ht, hw1, hr2, hw2, ha, hy]
  simp [List.append_assoc]

lemma matchTotalAt_complete {cs g : List Char} (h : IsTotalPhraseAt cs g) :
    matchTotalAt cs = some g := by
  obtain ⟨t, w1, w2, a, y, rest, hcs, hcit, hw1ne, hw1all, hgne, hgall, hw2ne,
    hw2all, hcia, hciy⟩ := h
  subst hcs
  have hheadg : ∀ c : Char, (g ++ w2 ++ a ++ y ++ rest).head? = some c → isJsWs c = false := by
    intro c hc
    cases g with
    | nil => exact absurd rfl hgne
    | cons gc g2 =>
      simp only [List.cons_append, List.head?_cons, Option.some.injEq] at hc
      subst hc
      rw [List.all_cons, Bool.and_eq_true] at hgall
      exact digitOrComma_not_ws hgall.1
  have hheadw2 : ∀ c : Char, (w2 ++ a ++ y ++ rest).head? = some c → isDigitOrComma c = false := by
    intro c hc
    cases w2 with
    | nil => exact absurd rfl hw2ne
    | cons wc w3 =>
      simp only [List.cons_append, List.head?_cons, Option.some.injEq] at hc
      subst hc
      rw [List.all_cons, Bool.and_eq_true] at hw2all
      exact ws_not_digitOrComma hw2all.1
  have hheada : ∀ c : Char, (a ++ y ++ rest).head? = some c → isJsWs c = false := by
    intro c hc
    obtain ⟨c0, a2, ha0, hlow⟩ := ciEq_head hcia
    subst ha0
    simp only [List.cons_append, List.head?_cons, Option.some.injEq] at hc
    subst hc
    exact not_ws_of_toLower hlow (by decide)
  unfold matchTotalAt
  have e1 : eatCI ['t', 'o', 't', 'a', 'l']
      (t ++ w1 ++ g ++ w2 ++ a ++ y ++ rest) =
      some (w1 ++ g ++ w2 ++ a ++ y ++ rest) := by
    have := eatCI_complete totalLits t (w1 ++ g ++ w2 ++ a ++ y ++ rest) hcit
    simpa [totalLits, List.append_assoc] using this
  have e2 : eatWs1 (w1 ++ g ++ w2 ++ a ++ y ++ rest) =
      some (g ++ w2 ++ a ++ y ++ rest) := by
    have := eatWs1_complete hw1ne hw1all (r := g ++ w2 ++ a ++ y ++ rest)
      (by simpa [List.append_assoc] using hheadg)
    simpa [List.append_assoc] using this
  have e3 : eatClass1 isDigitOrComma (g ++ w2 ++ a ++ y ++ rest) =
      some (g, w2 ++ a ++ y ++ rest) := by
    have := eatClass1_complete hgne hgall (r := w2 ++ a ++ y ++ rest)
      (by simpa [List.append_assoc] using hheadw2)
    simpa [List.append_assoc] using this
  have e4 : eatWs1 (w2 ++ a ++ y ++ rest) = some (a ++ y ++ rest) := by
    have := eatWs1_complete hw2ne hw2all (r := a ++ y ++ rest)
      (by simpa [List.append_assoc] using hheada)
    simpa [List.append_assoc] using this
  have e5 : eatCI ['a', 'c', 't', 'i', 'v', 'i', 't'] (a ++ y ++ rest) =
      some (y ++ rest) := by
    have := eatCI_complete actLits a (y ++ rest) hcia
    simpa [actLits, List.append_assoc] using this
  have e6 : eatYIes (y ++ rest) = some rest := by
    rcases hciy with hy | hy
    · exact eatYIes_complete_y hy
    · exact eatYIes_complete_ies hy
  simp only [e1, e2, e3, e4, e5, e6]

/-! ### Leftmost-scan lemmas -/

lemma scanFirstO_sound {m : List Char → Option β} :
    ∀ {cs : List Char} {b : β}, scanFirstO m cs = some b →
      ∃ pre suf, cs = pre ++ suf ∧ m suf = some b := by
  intro cs
  induction cs with
  | nil =>
    intro b h
    exact ⟨[], [], rfl, by simpa [scanFirstO] using h⟩
  | cons c cs2 ih =>
    intro b h
    rw [scanFirstO] at h
    cases hm : m (c :: cs2) with
    | some b2 =>
      rw [hm] at h
      simp only [Option.some.injEq] at h
      subst h
      exact ⟨[], c :: cs2, rfl, hm⟩
    | none =>
      rw [hm] at h
      obtain ⟨pre, suf, hcs, hsuf⟩ := ih h
      exact ⟨c :: pre, suf, by simp [hcs], hsuf⟩

lemma scanFirstO_none {m : List Char → Option β} :
    ∀ {cs : List Char}, scanFirstO m cs = none →
      ∀ pre suf, cs = pre ++ suf → m suf = none := by
  intro cs
  induction cs with
  | nil =>
    intro h pre suf heq
    have hsuf : suf = [] := by
      cases suf with
      | nil => rfl
      | cons a b => exact absurd heq.symm (by simp)
    rw [hsuf]
    simpa [scanFirstO] using h
  | cons c cs2 ih =>
    intro h pre suf heq
    rw [scanFirstO] at h
    cases hm : m (c :: cs2) with
    | some b => rw [hm] at h; exact absurd h (by simp)
    | none =>
      rw [hm] at h
      cases pre with
      | nil =>
        simp only [List.nil_append] at heq
        rw [← heq]
        exact hm
      | cons p pre2 =>
        simp only [List.cons_append, List.cons.injEq] at heq
        exact ih h pre2 suf heq.2

lemma scanFirstO_isSome_append {m : List Char → Option β} (pre : List Char)
    {suf : List Char} (h : (m suf).isSome = true) :
    (scanFirstO m (pre ++ suf)).isSome = true := by
  induction pre with
  | nil =>
    simp only [List.nil_append]
    cases suf with
    | nil => simpa [scanFirstO] using h
    | cons c cs2 =>
      rw [scanFirstO]
      cases hm : m (c :: cs2) with
      | some b => simp
      | none => rw [hm] at h; simp at h
  | cons c pre2 ih =>
    simp only [List.cons_append]
    rw [scanFirstO]
    cases hm : m (c :: (pre2 ++ suf)) with
    | some b => simp
    | none => exact ih

/-! ### The explicit Total-0 test is subsumed by the first pattern -/

lemma matchZero_imp_total {cs : List Char} (h : matchZeroAt cs = true) :
    (matchTotalAt cs).isSome = true := by
  unfold matchZeroAt at h
  cases h1 : eatCI ['t', 'o', 't', 'a', 'l'] cs with
  | none => simp only [h1] at h; exact absurd h (by simp)
  | some r1 =>
  simp only [h1] at h
  cases h2 : eatWs1 r1 with
  | none => simp only [h2] at h; exact absurd h (by simp)
  | some r2 =>
  simp only [h2] at h
  cases hr2 : r2 with
  | nil => simp only [hr2] at h; exact absurd h (by simp)
  | cons c r3 =>
  simp only [hr2] at h
  by_cases hc : c = '0'
  · rw [if_pos hc] at h
    subst hc
    cases h4 : eatWs1 r3 with
    | none => simp only [h4] at h; exact absurd h (by simp)
    | some r4 =>
    simp only [h4] at h
    cases h5 : eatCI ['a', 'c', 't', 'i', 'v', 'i', 't'] r4 with
    | none => simp only [h5] at h; exact absurd h (by simp)
    | some r5 =>
    simp only [h5] at h
    cases h6 : eatYIes r5 with
    | none => rw [h6] at h; simp [Option.isSome] at h
    | some r6 =>
    have hr3 : ∃ c2 cs2, r3 = c2 :: cs2 ∧ isJsWs c2 = true := by
      cases r3 with
      | nil => simp [eatWs1] at h4
      | cons c2 cs2 =>
        simp only [eatWs1] at h4
        by_cases hw : isJsWs c2
        · exact ⟨c2, cs2, rfl, hw⟩
        · rw [if_neg hw] at h4; exact absurd h4 (by simp)
    obtain ⟨c2, cs2, hr3eq, hwc2⟩ := hr3
    have hclass : eatClass1 isDigitOrComma ('0' :: r3) = some (['0'], r3) := by
      rw [hr3eq]
      simp only [eatClass1, if_pos (by decide : isDigitOrComma '0' = true)]
      rw [List.takeWhile_cons_of_neg, List.dropWhile_cons_of_neg]
      · simp [ws_not_digitOrComma hwc2]
      · simp [ws_not_digitOrComma hwc2]
    unfold matchTotalAt
    simp only [h1, h2, hr2, hclass, h4, h5, h6, Option.isSome]
  · rw [if_neg hc] at h
    exact absurd h (by simp)

lemma matchZero_false_of_total_none {cs : List Char} (h : matchTotalAt cs = none) :
    matchZeroAt cs = false := by
  cases hb : matchZeroAt cs
  · rfl
  · have := matchZero_imp_total hb
    rw [h] at this
    simp at this

lemma anySuffix_zero_false {cs : List Char}
    (h : scanFirstO matchTotalAt cs = none) : anySuffixB matchZeroAt cs = false := by
  induction cs with
  | nil =>
    rw [anySuffixB]
    exact matchZero_false_of_total_none (by simpa [scanFirstO] using h)
  | cons c cs2 ih =>
    rw [scanFirstO] at h
    cases hm : matchTotalAt (c :: cs2) with
    | some b => rw [hm] at h; exact absurd h (by simp)
    | none =>
      rw [hm] at h
      rw [anySuffixB, matchZero_false_of_total_none hm, ih h]
      rfl

/-! ### Digits of the returned activities value -/

lemma stripCommas_all_digits {g : List Char} (h : g.all isDigitOrComma = true) :
    (stripCommas g).all isDigitB = true := by
  rw [List.all_eq_true] at h ⊢
  intro c hc
  rw [stripCommas, List.mem_filter] at hc
  rcases isDigitOrComma_elim (h c hc.1) with hd | hcm
  · exact hd
  · have h2 : c ≠ ',' := by simpa using hc.2
    exact absurd hcm h2

/-! ### Lemmas about the Holdings PnL matcher -/

lemma matchLabelAt_head {c : Char} {cs r : List Char}
    (h : matchLabelAt (c :: cs) = some r) : c.toLower = 'h' := by
  unfold matchLabelAt at h
  cases h1 : eatCI ['h', 'o', 'l', 'd', 'i', 'n', 'g', 's'] (c :: cs) with
  | none => simp only [h1] at h; exact absurd h (by simp)
  | some r1 =>
    obtain ⟨c2, cs2, heq, hlow⟩ := eatCI_head h1
    injection heq with he1 he2
    rw [he1]
    exact hlow

lemma matchHoldingsAt_none_of_label {cs : List Char} (h : matchLabelAt cs = none) :
    matchHoldingsAt cs = none := by
  unfold matchHoldingsAt
  rw [h]

lemma matchHoldingsAt_head {c : Char} {cs g : List Char}
    (h : matchHoldingsAt (c :: cs) = some g) : c.toLower = 'h' := by
  unfold matchHoldingsAt at h
  cases hl : matchLabelAt (c :: cs) with
  | none => rw [hl] at h; exact absurd h (by simp)
  | some r => exact matchLabelAt_head hl

lemma scanHoldings_skip :
    ∀ (pre suf : List Char), (∀ c ∈ pre, ¬ c.toLower = 'h') →
      scanFirstO matchHoldingsAt (pre ++ suf) = scanFirstO matchHoldingsAt suf
  | [], suf, _ => by simp
  | c :: pre2, suf, hpre => by
    rw [List.cons_append, scanFirstO]
    cases hm : matchHoldingsAt (c :: (pre2 ++ suf)) with
    | some g => exact absurd (matchHoldingsAt_head hm) (hpre c (List.mem_cons_self c pre2))
    | none =>
      exact scanHoldings_skip pre2 suf (fun c2 hc2 => hpre c2 (List.mem_cons_of_mem c hc2))

lemma tailMatch_dollar :
    ∀ (mid tail : List Char) {g : List Char}, (∀ c ∈ mid, c ≠ '$') →
      groupMatch tail = some g → tailMatch (mid ++ '$' :: tail) = some g
  | [], tail, g, _, hg => by
    rw [List.nil_append, tailMatch, if_pos rfl]
    simp [dollarGroup, hg]
  | c :: mid2, tail, g, hmid, hg => by
    have hc : c ≠ '$' := hmid c (List.mem_cons_self c mid2)
    rw [List.cons_append, tailMatch, if_neg hc]
    rw [tailMatch_dollar mid2 tail (fun c2 h2 => hmid c2 (List.mem_cons_of_mem c h2)) hg]

lemma matchHoldings_complete_dollar {hold ws pnl mid tail g : List Char}
    (hh : ciEq ['h', 'o', 'l', 'd', 'i', 'n', 'g', 's'] hold = true)
    (hwne : ws ≠ []) (hwall : ws.all isJsWs = true)
    (hp : ciEq ['p', 'n', 'l'] pnl = true)
    (hmid : ∀ c ∈ mid, c ≠ '$') (hg : groupMatch tail = some g) :
    matchHoldingsAt (hold ++ ws ++ pnl ++ mid ++ '$' :: tail) = some g := by
  have hheadp : ∀ c : Char, (pnl ++ mid ++ '$' :: tail).head? = some c → isJsWs c = false := by
    intro c hc
    obtain ⟨c0, p2, hp0, hlow⟩ := ciEq_head hp
    subst hp0
    simp only [List.cons_append, List.head?_cons, Option.some.injEq] at hc
    subst hc
    exact not_ws_of_toLower hlow (by decide)
  have e1 : eatCI ['h', 'o', 'l', 'd', 'i', 'n', 'g', 's']
      (hold ++ ws ++ pnl ++ mid ++ '$' :: tail) =
      some (ws ++ pnl ++ mid ++ '$' :: tail) := by
    have := eatCI_complete ['h', 'o', 'l', 'd', 'i', 'n', 'g', 's'] hold
      (ws ++ pnl ++ mid ++ '$' :: tail) hh
    simpa [List.append_assoc] using this
  have e2 : eatWs1 (ws ++ pnl ++ mid ++ '$' :: tail) =
      some (pnl ++ mid ++ '$' :: tail) := by
    have := eatWs1_complete hwne hwall (r := pnl ++ mid ++ '$' :: tail)
      (by simpa [List.append_assoc] using hheadp)
    simpa [List.append_assoc] using this
  have e3 : eatCI ['p', 'n', 'l'] (pnl ++ mid ++ '$' :: tail) =
      some (mid ++ '$' :: tail) := by
    have := eatCI_complete ['p', 'n', 'l'] pnl (mid ++ '$' :: tail) hp
    simpa [List.append_assoc] using this
  have hlab : matchLabelAt (hold ++ ws ++ pnl ++ mid ++ '$' :: tail) =
      some (mid ++ '$' :: tail) := by
    unfold matchLabelAt
    simp only [e1, e2, e3]
  unfold matchHoldingsAt
  simp only [hlab]
  exact tailMatch_dollar mid tail hmid hg

lemma scanHoldings_none_of_noLabel :
    ∀ {cs : List Char}, hasHoldingsLabel cs = false →
      scanFirstO matchHoldingsAt cs = none := by
  intro cs
  induction cs with
  | nil =>
    intro h
    rw [hasHoldingsLabel, anySuffixB] at h
    rw [scanFirstO]
    exact matchHoldingsAt_none_of_label (by
      cases hl : matchLabelAt ([] : List Char)
      · rfl
      · rw [hl] at h; simp at h)
  | cons c cs2 ih =>
    intro h
    rw [hasHoldingsLabel, anySuffixB, Bool.or_eq_false_iff] at h
    rw [scanFirstO]
    cases hm : matchHoldingsAt (c :: cs2) with
    | some g =>
      unfold matchHoldingsAt at hm
      cases hl : matchLabelAt (c :: cs2) with
      | none => rw [hl] at hm; exact absurd hm (by simp)
      | some r => rw [hl] at h; simp at h
    | none => exact ih h.2

/-! ### Retry-loop lemmas -/

lemma backoffEvs_length : ∀ (a n : Nat), (backoffEvs a n).length = n
  | _, 0 => rfl
  | a, n + 1 => by
    rw [backoffEvs, List.length_cons, backoffEvs_length (a + 1) n]

lemma backoffEvs_concat : ∀ (a n : Nat),
    backoffEvs a (n + 1) = backoffEvs a n ++ [Ev.backoffSleep (backoffBaseMs * (a + n))]
  | a, 0 => by simp [backoffEvs]
  | a, n + 1 => by
    rw [backoffEvs, backoffEvs_concat (a + 1) n, backoffEvs]
    have harith : a + 1 + n = a + (n + 1) := by omega
    simp [harith]

lemma retry_ok {α : Type} (f : Nat → Except String α) (err : Nat → String) (v : α) :
    ∀ (j a r : Nat) (lastE : Option String), j < r →
      (∀ i, a ≤ i → i < a + j → f i = .error (err i)) → f (a + j) = .ok v →
      withRetriesGo (pureTask f) a lastE r = (backoffEvs a j, j + 1, .ok v)
  | 0, a, r, lastE, hjr, _, hok => by
    obtain ⟨r2, rfl⟩ : ∃ r2, r = r2 + 1 := ⟨r - 1, by omega⟩
    rw [withRetriesGo]
    simp only [pureTask]
    have hok2 : f a = .ok v := by simpa using hok
    simp [hok2, backoffEvs]
  | j + 1, a, r, lastE, hjr, hfail, hok => by
    obtain ⟨r2, rfl⟩ : ∃ r2, r = r2 + 1 := ⟨r - 1, by omega⟩
    rw [withRetriesGo]
    have hfa : f a = .error (err a) := hfail a (Nat.le_refl a) (by omega)
    simp only [pureTask, hfa]
    rw [retry_ok f err v j (a + 1) r2 (some (err a)) (by omega)
      (fun i h1 h2 => hfail i (by omega) (by omega))
      (by have harith : a + 1 + j = a + (j + 1) := by omega
          rw [harith]; exact hok)]
    simp [backoffEvs]

lemma retry_allfail {α : Type} (f : Nat → Except String α) (err : Nat → String) :
    ∀ (r a : Nat) (lastE : Option String), 1 ≤ r →
      (∀ i, a ≤ i → i < a + r → f i = .error (err i)) →
      withRetriesGo (pureTask f) a lastE r =
        (backoffEvs a r, r, .error (some (err (a + r - 1))))
  | 0, a, lastE, h1, _ => absurd h1 (by omega)
  | 1, a, lastE, _, hfail => by
    rw [withRetriesGo]
    have hfa : f a = .error (err a) := hfail a (Nat.le_refl a) (by omega)
    simp [pureTask, hfa, withRetriesGo, backoffEvs]
  | r2 + 2, a, lastE, _, hfail => by
    rw [withRetriesGo]
    have hfa : f a = .error (err a) := hfail a (Nat.le_refl a) (by omega)
    simp only [pureTask, hfa]
    rw [retry_allfail f err (r2 + 1) (a + 1) (some (err a)) (by omega)
      (fun i hi1 hi2 => hfail i (by omega) (by omega))]
    have harith : a + 1 + (r2 + 1) - 1 = a + (r2 + 2) - 1 := by omega
    simp [backoffEvs, harith]

lemma retry_fail_prefix {α : Type} (f : Nat → Except String α) (err : Nat → String) :
    ∀ (j a r : Nat) (lastE : Option String), j ≤ r →
      (∀ i, a ≤ i → i < a + j → f i = .error (err i)) →
      ∃ rest n out, withRetriesGo (pureTask f) a lastE r = (backoffEvs a j ++ rest, n, out)
  | 0, a, r, lastE, _, _ =>
    ⟨(withRetriesGo (pureTask f) a lastE r).1,
     (withRetriesGo (pureTask f) a lastE r).2.1,
     (withRetriesGo (pureTask f) a lastE r).2.2, by simp [backoffEvs]⟩
  | j + 1, a, r, lastE, hjr, hfail => by
    obtain ⟨r2, rfl⟩ : ∃ r2, r = r2 + 1 := ⟨r - 1, by omega⟩
    rw [withRetriesGo]
    have hfa : f a = .error (err a) := hfail a (Nat.le_refl a) (by omega)
    simp only [pureTask, hfa]
    obtain ⟨rest, n, out, hrec⟩ := retry_fail_prefix f err j (a + 1) r2 (some (err a))
      (by omega) (fun i h1 h2 => hfail i (by omega) (by omega))
    refine ⟨rest, n + 1, out, ?_⟩
    rw [hrec]
    simp [backoffEvs]

/-! ### Event counting through the retry wrapper -/

lemma countP_withRetriesGo {α : Type} (q : Ev → Bool)
    (task : Nat → List Ev × Except String α)
    (hq : ∀ k, ((task k).1).countP q = 0)
    (hb : ∀ ms, q (Ev.backoffSleep ms) = false) :
    ∀ (r a : Nat) (lastE : Option String),
      ((withRetriesGo task a lastE r).1).countP q = 0
  | 0, a, lastE => by simp [withRetriesGo]
  | r + 1, a, lastE => by
    rw [withRetriesGo]
    rcases hta : task a with ⟨evs, res⟩
    have hevs : evs.countP q = 0 := by
      have := hq a
      rw [hta] at this
      exact this
    cases res with
    | ok v => simp [hevs]
    | error e =>
      simp only []
      rw [List.countP_append, List.countP_cons]
      rw [hevs, hb, countP_withRetriesGo q task hq hb r (a + 1) (some e)]
      simp

lemma countP_fetchGuarded {α : Type} (q : Ev → Bool)
    (task : Nat → List Ev × Except String α) (attempts : Nat)
    (wallet label : String) (capture : Except String Unit)
    (hq : ∀ k, ((task k).1).countP q = 0)
    (hb : ∀ ms, q (Ev.backoffSleep ms) = false)
    (hs : ∀ w l, q (Ev.screenshotSaved w l) = false) :
    ((fetchGuarded task attempts wallet label capture).events).countP q = 0 := by
  unfold fetchGuarded
  have hw : ((withRetries task attempts).1).countP q = 0 := by
    unfold withRetries
    exact countP_withRetriesGo q task hq hb attempts 1 none
  rcases hwr : withRetries task attempts with ⟨evs, n, out⟩
  rw [hwr] at hw
  cases out with
  | ok v => simpa using hw
  | error e =>
    cases capture with
    | ok u =>
      simp only [FetchOut.events]
      rw [List.countP_append, hw]
      simp [List.countP_cons, hs]
    | error ce => simpa using hw

lemma step_countP_zero (q : Ev → Bool)
    (hnav : ∀ u, q (Ev.navigate u) = false) (hchk : q Ev.verifyCheck = false)
    (hpr : ∀ l, q (Ev.prompt l) = false) (hea : q Ev.extractActs = false)
    (hep : q Ev.extractPnl = false) (w : String) (aw : AttemptWorld) :
    ((solscanStep w aw).1).countP q = 0 ∧ ((jupiterStep w aw).1).countP q = 0 := by
  rcases aw with ⟨ne, vf, b, u⟩
  constructor <;> cases ne <;> cases vf <;>
    simp [solscanStep, jupiterStep, List.countP_cons, List.countP_append,
      hnav, hchk, hpr, hea, hep]

/-! ### Unfolding lemmas for the wallet loop -/

lemma scanFirstO_head {m : List Char → Option β} {cs : List Char} {b : β}
    (h : m cs = some b) : scanFirstO m cs = some b := by
  cases cs with
  | nil => simpa [scanFirstO] using h
  | cons c cs2 => rw [scanFirstO, h]

lemma processWallet_skip_empty (cfg : Config) (entry : WalletEntry) (w : WalletWorld)
    (h : truthy entry.wallet = false) :
    processWallet cfg entry w = ([Ev.logSkipEmpty entry.rowIndex], .ok ()) := by
  unfold processWallet
  cases hw : entry.wallet with
  | none => rfl
  | some wa =>
    rw [hw] at h
    have hwa : wa = "" := by simpa [truthy] using h
    simp [hwa]

lemma processWallet_skip_processed (cfg : Config) (entry : WalletEntry) (w : WalletWorld)
    (hwt : truthy entry.wallet = true) (ha : truthy entry.activities = true)
    (hp : truthy entry.holdingsPnl = true) :
    processWallet cfg entry w = ([Ev.logSkipProcessed entry.rowIndex], .ok ()) := by
  unfold processWallet
  cases hw : entry.wallet with
  | none => rw [hw] at hwt; simp [truthy] at hwt
  | some wa =>
    rw [hw] at hwt
    have hwa : ¬ wa = "" := by simpa [truthy] using hwt
    simp [hwa, ha, hp]

lemma processWallet_failA (cfg : Config) (entry : WalletEntry) (w : WalletWorld)
    (wa : String) (e : Option String) (hw : entry.wallet = some wa) (hwa : wa ≠ "")
    (hnb : (truthy entry.activities && truthy entry.holdingsPnl) = false)
    (hA : (fetchActivities cfg wa w).result = .error e) :
    processWallet cfg entry w = ((fetchActivities cfg wa w).events, .error e) := by
  unfold processWallet
  rw [hw]
  simp only [hwa, if_false, if_neg (by simp [hnb] : ¬ (truthy entry.activities && truthy entry.holdingsPnl) = true)]
  simp [hA]

lemma processWallet_failB (cfg : Config) (entry : WalletEntry) (w : WalletWorld)
    (wa av : String) (e : Option String) (hw : entry.wallet = some wa) (hwa : wa ≠ "")
    (hnb : (truthy entry.activities && truthy entry.holdingsPnl) = false)
    (hA : (fetchActivities cfg wa w).result = .ok av)
    (hB : (fetchPnl cfg wa w).result = .error e) :
    processWallet cfg entry w =
      ((fetchActivities cfg wa w).events ++
        Ev.rateSleep cfg.rateLimitMs :: (fetchPnl cfg wa w).events, .error e) := by
  unfold processWallet
  rw [hw]
  simp only [hwa, if_false, if_neg (by simp [hnb] : ¬ (truthy entry.activities && truthy entry.holdingsPnl) = true)]
  simp [hA, hB]

lemma processWallet_ok (cfg : Config) (entry : WalletEntry) (w : WalletWorld)
    (wa av pv : String) (hw : entry.wallet = some wa) (hwa : wa ≠ "")
    (hnb : (truthy entry.activities && truthy entry.holdingsPnl) = false)
    (hA : (fetchActivities cfg wa w).result = .ok av)
    (hB : (fetchPnl cfg wa w).result = .ok pv)
    (hWr : w.writeOutcome = .ok ()) :
    processWallet cfg entry w =
      ((fetchActivities cfg wa w).events ++
        Ev.rateSleep cfg.rateLimitMs ::
          ((fetchPnl cfg wa w).events ++
            [Ev.write entry.rowIndex av pv, Ev.rateSleep cfg.rateLimitMs]),
       .ok ()) := by
  unfold processWallet
  rw [hw]
  simp only [hwa, if_false, if_neg (by simp [hnb] : ¬ (truthy entry.activities && truthy entry.holdingsPnl) = true)]
  simp [hA, hB, hWr]

lemma runPairs_cons_ok (cfg : Config) (entry : WalletEntry) (w : WalletWorld)
    (rest : List (WalletEntry × WalletWorld))
    (h : (processWallet cfg entry w).2 = .ok ()) :
    runPairs cfg ((entry, w) :: rest) =
      ((processWallet cfg entry w).1 ++ (runPairs cfg rest).1, (runPairs cfg rest).2) := by
  rw [runPairs]
  rcases hp : processWallet cfg entry w with ⟨evs, res⟩
  rw [hp] at h
  simp only at h
  subst h
  simp

lemma runPairs_cons_err (cfg : Config) (entry : WalletEntry) (w : WalletWorld)
    (rest : List (WalletEntry × WalletWorld)) (e : Option String)
    (h : (processWallet cfg entry w).2 = .error e) :
    runPairs cfg ((entry, w) :: rest) = ((processWallet cfg entry w).1, .error e) := by
  rw [runPairs]
  rcases hp : processWallet cfg entry w with ⟨evs, res⟩
  rw [hp] at h
  simp only at h
  subst h
  simp

lemma runPairs_append_ok (cfg : Config) :
    ∀ (pre rest : List (WalletEntry × WalletWorld)),
      (runPairs cfg pre).2 = .ok () →
      runPairs cfg (pre ++ rest) =
        ((runPairs cfg pre).1 ++ (runPairs cfg rest).1, (runPairs cfg rest).2)
  | [], rest, _ => by simp [runPairs]
  | (entry, w) :: pre2, rest, hok => by
    cases hp : (processWallet cfg entry w).2 with
    | error e =>
      rw [runPairs_cons_err cfg entry w pre2 e hp] at hok
      exact absurd hok (by simp)
    | ok u =>
      have hpo : (processWallet cfg entry w).2 = .ok () := by rw [hp]
      have hconsB := runPairs_cons_ok cfg entry w pre2 hpo
      rw [hconsB] at hok
      rw [List.cons_append, runPairs_cons_ok cfg entry w (pre2 ++ rest) hpo,
        runPairs_append_ok cfg pre2 rest hok, hconsB]
      simp [List.append_assoc]

/-! ### Claim C1: the activities extractor -/

/-- C1: the activities extractor follows the four-case specification on
the normalised body text: a Total-number-activities phrase yields the
captured number with commas stripped (a pure digit string), and the text
then really contains such a phrase (and conversely a contained phrase
guarantees a capture); when neither extraction pattern matches, an
activities-view URL yields zero and any other URL yields the Extraction
error. -/
theorem C1_activities_extractor_contract (text url : String) :
    (∀ g, scanFirstO matchTotalAt (cleanText text) = some g →
       extractSolscanActivities text url = .ok (String.mk (stripCommas g)) ∧
       (stripCommas g).all isDigitB = true ∧
       spec_containsTotalPhrase (cleanText text)) ∧
    (spec_containsTotalPhrase (cleanText text) →
       ∃ g, scanFirstO matchTotalAt (cleanText text) = some g) ∧
    (scanFirstO matchTotalAt (cleanText text) = none →
     scanFirstO matchMoreAt (cleanText text) = none →
     includesSub url.data "#activities".data = true →
       extractSolscanActivities text url = .ok "0") ∧
    (scanFirstO matchTotalAt (cleanText text) = none →
     scanFirstO matchMoreAt (cleanText text) = none →
     includesSub url.data "#activities".data = false →
       extractSolscanActivities text url = .error solscanErrMsg) := by
  refine ⟨?_, ?_, ?_, ?_⟩
  · intro g hg
    obtain ⟨pre, suf, hsplit, hm⟩ := scanFirstO_sound hg
    have hph := matchTotalAt_sound hm
    obtain ⟨t, w1, w2, a, y, rest, hcs, hcit, hw1ne, hw1all, hgne, hgall,
      hw2ne, hw2all, hcia, hciy⟩ := hph
    refine ⟨?_, stripCommas_all_digits hgall, ⟨pre, suf, g, hsplit, ?_⟩⟩
    · unfold extractSolscanActivities
      simp only [hg]
    · exact ⟨t, w1, w2, a, y, rest, hcs, hcit, hw1ne, hw1all, hgne, hgall,
        hw2ne, hw2all, hcia, hciy⟩
  · rintro ⟨pre, suf, g, hsplit, hph⟩
    have hm := matchTotalAt_complete hph
    have hsome : (scanFirstO matchTotalAt (pre ++ suf)).isSome = true :=
      scanFirstO_isSome_append pre (by rw [hm]; rfl)
    rw [hsplit]
    exact Option.isSome_iff_exists.mp hsome
  · intro h1 h2 h3
    unfold extractSolscanActivities
    simp only [h1, h2, anySuffix_zero_false h1, h3]
    simp
  · intro h1 h2 h3
    unfold extractSolscanActivities
    simp only [h1, h2, anySuffix_zero_false h1, h3]
    simp

/-- Witness for C1 at the concrete page text of the specification. -/
theorem C1_activities_extractor_contract_witness :
    scanFirstO matchTotalAt (cleanText "Total 1,234 activities") =
      some ['1', ',', '2', '3', '4'] ∧
    extractSolscanActivities "Total 1,234 activities" "https://solscan.io/account/x"
      = .ok "1234" := by
  have hg : scanFirstO matchTotalAt (cleanText "Total 1,234 activities") =
      some ['1', ',', '2', '3', '4'] := by rfl
  refine ⟨hg, ?_⟩
  exact ((C1_activities_extractor_contract "Total 1,234 activities"
    "https://solscan.io/account/x").1 _ hg).1

/-! ### Claim C2: the Holdings PnL extractor -/

/-- C2 counterexample: for the body text Holdings PnL -5 the label is
followed by the signed number -5, but the extractor returns 5 with the
sign dropped, because the greedy dollar-free gap swallows the sign when
no dollar sign is present.  The claim asserts the sign is preserved. -/
theorem C2_holdings_counterexample :
    extractJupiterHoldingsPnl "Holdings PnL -5" = .ok "5" ∧ ("5" : String) ≠ "-5" :=
  ⟨rfl, by decide⟩

/-- C2 amended: when a dollar sign stands between the label and the
number, the extractor returns the captured signed number verbatim; and
when the Holdings PnL label does not occur at all, it fails with the
Extraction error.  (Without a dollar sign the greedy gap consumes the
sign and all but a suffix of the number, as the counterexample shows.) -/
theorem C2_holdings_extractor_amended (text : String) :
    (∀ pre hold ws pnl mid tail g,
       text.data = pre ++ hold ++ ws ++ pnl ++ mid ++ '$' :: tail →
       (∀ c ∈ pre, ¬ c.toLower = 'h') →
       ciEq ['h', 'o', 'l', 'd', 'i', 'n', 'g', 's'] hold = true →
       ws ≠ [] → ws.all isJsWs = true →
       ciEq ['p', 'n', 'l'] pnl = true →
       (∀ c ∈ mid, c ≠ '$') →
       groupMatch tail = some g →
       extractJupiterHoldingsPnl text = .ok (String.mk (jsTrim g))) ∧
    (hasHoldingsLabel text.data = false →
       extractJupiterHoldingsPnl text = .error jupiterErrMsg) := by
  constructor
  · intro pre hold ws pnl mid tail g hsplit hpre hh hwne hwall hp hmid hg
    have hm : matchHoldingsAt (hold ++ ws ++ pnl ++ mid ++ '$' :: tail) = some g :=
      matchHoldings_complete_dollar hh hwne hwall hp hmid hg
    have hsplit2 : text.data = pre ++ (hold ++ ws ++ pnl ++ mid ++ '$' :: tail) := by
      rw [hsplit]; simp [List.append_assoc]
    have hscan : scanFirstO matchHoldingsAt text.data = some g := by
      rw [hsplit2, scanHoldings_skip pre _ hpre]
      exact scanFirstO_head hm
    unfold extractJupiterHoldingsPnl
    simp only [hscan]
  · intro h
    unfold extractJupiterHoldingsPnl
    simp only [scanHoldings_none_of_noLabel h]

/-- Witness for the amended C2 at the concrete text of the
specification: the dollar-prefixed signed number is returned verbatim,
separators and sign preserved. -/
theorem C2_holdings_extractor_amended_witness :
    extractJupiterHoldingsPnl "Holdings PnL $-1,234.56" = .ok "-1,234.56" := by
  have h := (C2_holdings_extractor_amended "Holdings PnL $-1,234.56").1
    [] "Holdings".data [' '] "PnL".data [' '] "-1,234.56".data "-1,234.56".data
    (by rfl) (by simp) (by decide) (by decide) (by decide) (by decide)
    (by decide) (by rfl)
  exact h

/-! ### Claim C3: the retry contract -/

/-- C3: when the operation fails on attempts 1..k-1 and succeeds on
attempt k within the budget, the guarded retry wrapper calls the
operation exactly k times, never invokes the failure hook, and returns
the success; when every attempt fails, it calls the operation exactly
maxAttempts times, invokes the failure hook exactly once, and (the hook
succeeding) propagates the last error. -/
theorem C3_retry_contract {α : Type} (f : Nat → Except String α) (err : Nat → String)
    (attempts k : Nat) (v : α) (wallet label : String) (capture : Except String Unit) :
    (1 ≤ k → k ≤ attempts → (∀ i, 1 ≤ i → i < k → f i = .error (err i)) →
       f k = .ok v →
       (fetchGuarded (pureTask f) attempts wallet label capture).calls = k ∧
       (fetchGuarded (pureTask f) attempts wallet label capture).hookCalls = 0 ∧
       (fetchGuarded (pureTask f) attempts wallet label capture).result = .ok v) ∧
    (1 ≤ attempts → (∀ i, 1 ≤ i → i ≤ attempts → f i = .error (err i)) →
       (fetchGuarded (pureTask f) attempts wallet label capture).calls = attempts ∧
       (fetchGuarded (pureTask f) attempts wallet label capture).hookCalls = 1 ∧
       (capture = .ok () →
         (fetchGuarded (pureTask f) attempts wallet label capture).result =
           .error (some (err attempts)))) := by
  constructor
  · intro hk1 hk2 hfail hok
    obtain ⟨j, rfl⟩ : ∃ j, k = j + 1 := ⟨k - 1, by omega⟩
    have hr := retry_ok f err v j 1 attempts none (by omega)
      (fun i h1 h2 => hfail i h1 (by omega))
      (by have harith : 1 + j = j + 1 := by omega
          rw [harith]; exact hok)
    unfold fetchGuarded withRetries
    rw [hr]
    simp
  · intro h1 hfail
    have hr := retry_allfail f err attempts 1 none h1
      (fun i hi1 hi2 => hfail i hi1 (by omega))
    have harith : 1 + attempts - 1 = attempts := by omega
    rw [harith] at hr
    unfold fetchGuarded withRetries
    rw [hr]
    cases capture with
    | ok u => simp
    | error ce =>
      refine ⟨by simp, by simp, ?_⟩
      intro hcap
      exact absurd hcap (by simp)

/-- Witness for C3: fails twice then succeeds on the third of three
attempts (three calls, no hook); always failing (three calls, one hook,
last error propagated). -/
theorem C3_retry_contract_witness :
    (fetchGuarded (pureTask (fun k => if k = 3 then .ok "v" else .error "boom"))
      3 "w" "l" (.ok ())).calls = 3 ∧
    (fetchGuarded (pureTask (fun k => if k = 3 then .ok "v" else .error "boom"))
      3 "w" "l" (.ok ())).hookCalls = 0 ∧
    (fetchGuarded (pureTask (fun k => if k = 3 then .ok "v" else .error "boom"))
      3 "w" "l" (.ok ())).result = .ok "v" ∧
    (fetchGuarded (pureTask (fun _ => (.error "boom" : Except String String))) 3 "w" "l" (.ok ())).calls = 3 ∧
    (fetchGuarded (pureTask (fun _ => (.error "boom" : Except String String))) 3 "w" "l" (.ok ())).hookCalls = 1 ∧
    (fetchGuarded (pureTask (fun _ => (.error "boom" : Except String String))) 3 "w" "l" (.ok ())).result =
      .error (some "boom") := by
  have hA := (C3_retry_contract (fun k => if k = 3 then .ok "v" else .error "boom")
    (fun _ => "boom") 3 3 "v" "w" "l" (.ok ())).1 (by decide) (by decide)
    (fun i h1 h2 => by
      have hne : ¬ i = 3 := by omega
      simp [hne])
    (by simp)
  have hB := (C3_retry_contract (fun _ => (.error "boom" : Except String String))
    (fun _ => "boom") 3 1 "v" "w" "l" (.ok ())).2 (by decide) (fun i h1 h2 => rfl)
  exact ⟨hA.1, hA.2.1, hA.2.2, hB.1, hB.2.1, hB.2.2 rfl⟩

/-! ### Claim C4: the backoff base -/

/-- C4 counterexample: with every configurable duration of the
process-wide configuration set to 7 milliseconds, the backoff sleeps
recorded by the retry wrapper are still 2000, 4000, 6000 — the backoff
base is the hardcoded literal 2000 of the sleep call, not a configurable
field of the configuration. -/
theorem C4_backoff_counterexample :
    (fetchActivities cfg7 "w1" cexWorldC4).events =
      [Ev.navigate (solscanUrl "w1"), Ev.backoffSleep 2000,
       Ev.navigate (solscanUrl "w1"), Ev.backoffSleep 4000,
       Ev.navigate (solscanUrl "w1"), Ev.backoffSleep 6000,
       Ev.screenshotSaved "w1" "solscan"] ∧
    cfg7.rateLimitMs = 7 ∧ cfg7.timeoutMs = 7 ∧ cfg7.maxRetries = 3 ∧
    (2000 : Nat) ≠ 7 * 1 ∧ (2000 : Nat) ≠ 3 * 1 :=
  ⟨rfl, rfl, rfl, rfl, by decide, by decide⟩

/-- C4 amended: for every attempt index k with 1 ≤ k < maxAttempts whose
first k attempts fail, the sleep separating attempt k from attempt k+1
is backoffBaseMs * k, where backoffBaseMs is the hardcoded constant 2000
of the sleep call (linear in the attempt index, not configurable). -/
theorem C4_backoff_linear_amended {α : Type} (f : Nat → Except String α)
    (err : Nat → String) (attempts k : Nat) (hk1 : 1 ≤ k) (hk2 : k < attempts)
    (hfail : ∀ i, 1 ≤ i → i ≤ k → f i = .error (err i)) :
    ∃ rest, (withRetries (pureTask f) attempts).1 =
      backoffEvs 1 (k - 1) ++ Ev.backoffSleep (backoffBaseMs * k) :: rest := by
  obtain ⟨rest, n, out, hr⟩ := retry_fail_prefix f err k 1 attempts none (by omega)
    (fun i h1 h2 => hfail i h1 (by omega))
  refine ⟨rest, ?_⟩
  unfold withRetries
  rw [hr]
  obtain ⟨m, rfl⟩ : ∃ m, k = m + 1 := ⟨k - 1, by omega⟩
  rw [backoffEvs_concat 1 m]
  have harith : 1 + m = m + 1 := by omega
  rw [harith]
  simp [List.append_assoc]

/-- Witness for the amended C4 with two attempts and a failing first
attempt: a sleep of 2000 times 1 separates attempt 1 from attempt 2. -/
theorem C4_backoff_linear_amended_witness :
    ∃ rest, (withRetries (pureTask (fun _ => (.error "e" : Except String String))) 2).1 =
      backoffEvs 1 0 ++ Ev.backoffSleep (backoffBaseMs * 1) :: rest :=
  C4_backoff_linear_amended (fun _ => .error "e") (fun _ => "e") 2 1
    (by decide) (by decide) (fun i h1 h2 => rfl)

/-! ### Claim C10: a backoff sleep also follows the final failure -/

/-- C10: when every attempt fails, the retry wrapper sleeps after every
failed attempt including the final one: the trace is exactly the
backoff sleeps of attempts 1..maxAttempts, there are maxAttempts of them
(not maxAttempts - 1), the final event is the sleep of
backoffBaseMs * maxAttempts elapsing between the last failure and the
propagation of the error, and the operation was called maxAttempts
times. -/
theorem C10_backoff_after_final_failure {α : Type} (f : Nat → Except String α)
    (err : Nat → String) (attempts : Nat) (h1 : 1 ≤ attempts)
    (hfail : ∀ i, 1 ≤ i → i ≤ attempts → f i = .error (err i)) :
    (withRetries (pureTask f) attempts).1 = backoffEvs 1 attempts ∧
    ((withRetries (pureTask f) attempts).1).length = attempts ∧
    (withRetries (pureTask f) attempts).1 =
      backoffEvs 1 (attempts - 1) ++ [Ev.backoffSleep (backoffBaseMs * attempts)] ∧
    (withRetries (pureTask f) attempts).2.1 = attempts := by
  have hr := retry_allfail f err attempts 1 none h1
    (fun i hi1 hi2 => hfail i hi1 (by omega))
  unfold withRetries
  rw [hr]
  refine ⟨rfl, backoffEvs_length 1 attempts, ?_, rfl⟩
  obtain ⟨m, rfl⟩ : ∃ m, attempts = m + 1 := ⟨attempts - 1, by omega⟩
  rw [backoffEvs_concat 1 m]
  have harith : 1 + m = m + 1 := by omega
  rw [harith]
  simp

/-- Witness for C10 with two always-failing attempts: two backoff
sleeps, the last of 2000 times 2. -/
theorem C10_backoff_after_final_failure_witness :
    (withRetries (pureTask (fun _ => (.error "e" : Except String String))) 2).1 =
      backoffEvs 1 2 ∧
    ((withRetries (pureTask (fun _ => (.error "e" : Except String String))) 2).1).length = 2 ∧
    (withRetries (pureTask (fun _ => (.error "e" : Except String String))) 2).1 =
      backoffEvs 1 (2 - 1) ++ [Ev.backoffSleep (backoffBaseMs * 2)] ∧
    (withRetries (pureTask (fun _ => (.error "e" : Except String String))) 2).2.1 = 2 :=
  C10_backoff_after_final_failure (fun _ => .error "e") (fun _ => "e") 2
    (by decide) (fun i h1 h2 => rfl)

/-! ### Claim C5: skip rules of the wallet loop -/

/-- C5: a record with both result cells already populated is skipped
with a single skip log line and no navigation, extraction or sheet
write; a record with a missing wallet address is skipped with the
empty-wallet log line and no navigation at all. -/
theorem C5_skip_rules (cfg : Config) (entry : WalletEntry) (w : WalletWorld) :
    (truthy entry.activities = true → truthy entry.holdingsPnl = true →
       processWallet cfg entry w =
         ([if truthy entry.wallet then Ev.logSkipProcessed entry.rowIndex
           else Ev.logSkipEmpty entry.rowIndex], .ok ()) ∧
       countNav (processWallet cfg entry w).1 = 0 ∧
       countExtract (processWallet cfg entry w).1 = 0 ∧
       countWrites (processWallet cfg entry w).1 = 0) ∧
    (truthy entry.wallet = false →
       processWallet cfg entry w = ([Ev.logSkipEmpty entry.rowIndex], .ok ()) ∧
       countNav (processWallet cfg entry w).1 = 0) := by
  constructor
  · intro ha hp
    cases hwt : truthy entry.wallet with
    | false =>
      have h := processWallet_skip_empty cfg entry w hwt
      rw [h]
      refine ⟨by simp, ?_, ?_, ?_⟩ <;>
        simp [countNav, countExtract, countWrites, isNavEv, isExtractEv, isWriteEv,
          List.countP_cons]
    | true =>
      have h := processWallet_skip_processed cfg entry w hwt ha hp
      rw [h]
      refine ⟨by simp, ?_, ?_, ?_⟩ <;>
        simp [countNav, countExtract, countWrites, isNavEv, isExtractEv, isWriteEv,
          List.countP_cons]
  · intro hwt
    have h := processWallet_skip_empty cfg entry w hwt
    rw [h]
    exact ⟨rfl, by simp [countNav, isNavEv, List.countP_cons]⟩

/-- Witness for C5: a fully populated record is skipped with the
processed log line; a record without an address is skipped with the
empty log line. -/
theorem C5_skip_rules_witness :
    processWallet cexCfg ⟨some "w", some "5", some "9", 2⟩ cexWorldC8 =
      ([Ev.logSkipProcessed 2], .ok ()) ∧
    processWallet cexCfg ⟨none, none, none, 3⟩ cexWorldC8 =
      ([Ev.logSkipEmpty 3], .ok ()) := by
  have h1 := (C5_skip_rules cexCfg ⟨some "w", some "5", some "9", 2⟩ cexWorldC8).1
    (by decide) (by decide)
  have h2 := (C5_skip_rules cexCfg ⟨none, none, none, 3⟩ cexWorldC8).2 (by decide)
  exact ⟨by simpa using h1.1, h2.1⟩

/-! ### Claim C6: an exhausted wallet aborts the whole run -/

/-- C6: when either metric of a wallet exhausts its retries, the wallet
produces an error, no sheet write happens for it, the loop processes no
further record, and the process logs a fatal line and exits with code
1. -/
theorem C6_failure_terminates_run (cfg : Config)
    (pre post : List (WalletEntry × WalletWorld)) (entry : WalletEntry)
    (w : WalletWorld) (wa : String) (hw : entry.wallet = some wa) (hwa : wa ≠ "")
    (hnb : (truthy entry.activities && truthy entry.holdingsPnl) = false)
    (hpre : (runPairs cfg pre).2 = .ok ())
    (hfail : (∃ e, (fetchActivities cfg wa w).result = .error e) ∨
             (∃ av e, (fetchActivities cfg wa w).result = .ok av ∧
                      (fetchPnl cfg wa w).result = .error e)) :
    ∃ err, (processWallet cfg entry w).2 = .error err ∧
      countWrites (processWallet cfg entry w).1 = 0 ∧
      runMain cfg (pre ++ (entry, w) :: post) =
        ((runPairs cfg pre).1 ++ (processWallet cfg entry w).1 ++ [Ev.logFatal], 1) := by
  have hcwA : ((fetchActivities cfg wa w).events).countP isWriteEv = 0 := by
    unfold fetchActivities
    exact countP_fetchGuarded isWriteEv _ cfg.maxRetries wa "solscan" w.solCapture
      (fun k => (step_countP_zero isWriteEv (fun u => rfl) rfl (fun l => rfl) rfl rfl
        wa (w.solWorlds k)).1)
      (fun ms => rfl) (fun a b => rfl)
  have hcwB : ((fetchPnl cfg wa w).events).countP isWriteEv = 0 := by
    unfold fetchPnl
    exact countP_fetchGuarded isWriteEv _ cfg.maxRetries wa "jupiter" w.jupCapture
      (fun k => (step_countP_zero isWriteEv (fun u => rfl) rfl (fun l => rfl) rfl rfl
        wa (w.jupWorlds k)).2)
      (fun ms => rfl) (fun a b => rfl)
  have hmain : ∀ e : Option String, (processWallet cfg entry w).2 = .error e →
      runMain cfg (pre ++ (entry, w) :: post) =
        ((runPairs cfg pre).1 ++ (processWallet cfg entry w).1 ++ [Ev.logFatal], 1) := by
    intro e hpw
    have hcons := runPairs_cons_err cfg entry w post e hpw
    have happ := runPairs_append_ok cfg pre ((entry, w) :: post) hpre
    unfold runMain
    rw [happ, hcons]
    try simp [List.append_assoc]
  rcases hfail with ⟨e, hA⟩ | ⟨av, e, hA, hB⟩
  · have hpw := processWallet_failA cfg entry w wa e hw hwa hnb hA
    refine ⟨e, by rw [hpw], ?_, hmain e (by rw [hpw])⟩
    rw [hpw]
    exact hcwA
  · have hpw := processWallet_failB cfg entry w wa av e hw hwa hnb hA hB
    refine ⟨e, by rw [hpw], ?_, hmain e (by rw [hpw])⟩
    rw [hpw]
    simp only [countWrites, List.countP_append, List.countP_cons]
    rw [hcwA, hcwB]
    rfl

/-- Witness for C6: a single wallet whose activities fetch exhausts
(and whose screenshot also fails) terminates the run with exit code 1
after the fatal log, with no sheet write. -/
theorem C6_failure_terminates_run_witness :
    (processWallet cfg1 cexEntry cexWorldC9).2 = .error (some "screenshot failed") ∧
    countWrites (processWallet cfg1 cexEntry cexWorldC9).1 = 0 ∧
    runMain cfg1 ([] ++ (cexEntry, cexWorldC9) :: []) =
      ((runPairs cfg1 []).1 ++ (processWallet cfg1 cexEntry cexWorldC9).1 ++
        [Ev.logFatal], 1) := by
  obtain ⟨err, h1, h2, h3⟩ := C6_failure_terminates_run cfg1 [] [] cexEntry cexWorldC9
    "w1" rfl (by decide) rfl rfl (Or.inl ⟨some "screenshot failed", rfl⟩)
  exact ⟨rfl, h2, h3⟩

/-! ### Claim C7: what happens after a verification resumption -/

/-- C7 counterexample: on a page load where the detector reports a
challenge, the trace of a successful fetch is navigate, one detector
consultation, the prompt, then directly the extraction — there is no
re-navigation between the resumption and the extraction, refuting the
claimed loop back to the navigate step. -/
theorem C7_renavigation_counterexample :
    (fetchActivities cexCfg "w1" cexWorldC7).events =
      [Ev.navigate (solscanUrl "w1"), Ev.verifyCheck, Ev.prompt "Solscan",
       Ev.extractActs] ∧
    renavAfterPrompts (fetchActivities cexCfg "w1" cexWorldC7).events = false ∧
    (fetchActivities cexCfg "w1" cexWorldC7).result = .ok "5" :=
  ⟨rfl, rfl, rfl⟩

/-- C7 amended: after the operator resumes, the caller proceeds directly
to extraction on the same page load — the detector is consulted exactly
once, before the prompt, and no navigation separates the prompt from the
extraction; a re-navigation happens only when the extraction then fails
and the retry wrapper starts the next attempt, after the backoff
sleep. -/
theorem C7_resume_goes_straight_to_extraction (wallet : String)
    (ws : Nat → AttemptWorld) (r : Nat) (e : String)
    (h1 : (ws 1).navError = none) (h2 : (ws 1).verify = true)
    (h3 : extractSolscanActivities (ws 1).body (ws 1).url = .error e) :
    ∃ tail, (withRetriesGo (fun k => solscanStep wallet (ws k)) 1 none (r + 2)).1 =
      Ev.navigate (solscanUrl wallet) :: Ev.verifyCheck :: Ev.prompt "Solscan" ::
        Ev.extractActs :: Ev.backoffSleep (backoffBaseMs * 1) ::
        Ev.navigate (solscanUrl wallet) :: tail := by
  have hstep1 : solscanStep wallet (ws 1) =
      ([Ev.navigate (solscanUrl wallet), Ev.verifyCheck, Ev.prompt "Solscan",
        Ev.extractActs], .error e) := by
    unfold solscanStep
    rw [h1]
    simp [h2, h3]
  have hnav2 : ∃ t2, (withRetriesGo (fun k => solscanStep wallet (ws k)) 2
      (some e) (r + 1)).1 = Ev.navigate (solscanUrl wallet) :: t2 := by
    rw [withRetriesGo]
    rcases hs2 : solscanStep wallet (ws 2) with ⟨evs2, res2⟩
    have hevshape : ∃ t3, evs2 = Ev.navigate (solscanUrl wallet) :: t3 := by
      unfold solscanStep at hs2
      cases hn2 : (ws 2).navError with
      | some e2 =>
        rw [hn2] at hs2
        exact ⟨[], by rw [← (Prod.mk.injEq _ _ _ _ |>.mp hs2).1]⟩
      | none =>
        rw [hn2] at hs2
        exact ⟨Ev.verifyCheck ::
          ((if (ws 2).verify then [Ev.prompt "Solscan"] else []) ++ [Ev.extractActs]),
          by rw [← (Prod.mk.injEq _ _ _ _ |>.mp hs2).1]; rfl⟩
    obtain ⟨t3, rfl⟩ := hevshape
    cases res2 with
    | ok v => exact ⟨t3, by simp [hs2]⟩
    | error e2 =>
      refine ⟨t3 ++ Ev.backoffSleep (backoffBaseMs * 2) ::
        (withRetriesGo (fun k => solscanStep wallet (ws k)) 3 (some e2) r).1, ?_⟩
      simp [hs2]
  obtain ⟨t2, ht2⟩ := hnav2
  refine ⟨t2, ?_⟩
  rw [withRetriesGo]
  simp only [hstep1, ht2]
  rfl

/-- Witness for the amended C7: attempt 1 hits a challenge, resumes,
extracts and fails; the retry re-navigates only after the backoff. -/
theorem C7_resume_goes_straight_to_extraction_witness :
    ∃ tail, (withRetriesGo (fun k => solscanStep "w1"
        ((fun _ => verifyFailWorldA) k)) 1 none (1 + 2)).1 =
      Ev.navigate (solscanUrl "w1") :: Ev.verifyCheck :: Ev.prompt "Solscan" ::
        Ev.extractActs :: Ev.backoffSleep (backoffBaseMs * 1) ::
        Ev.navigate (solscanUrl "w1") :: tail :=
  C7_resume_goes_straight_to_extraction "w1" (fun _ => verifyFailWorldA) 1
    solscanErrMsg rfl rfl rfl

/-! ### Claim C8: placement of the rate-limit pauses -/

/-- C8 counterexample: in a fully successful wallet iteration the trace
has exactly two rate-limit pauses — one after the activities fetch and
one after the sheet write; the write is immediately preceded by the PnL
extraction, not by a pause, refuting the claimed pause between the
second fetch and the write (and pauses happen only on success paths). -/
theorem C8_pause_counterexample :
    processWallet cexCfg cexEntry cexWorldC8 =
      ([Ev.navigate (solscanUrl "w1"), Ev.verifyCheck, Ev.extractActs,
        Ev.rateSleep 2000,
        Ev.navigate (jupiterUrl "w1"), Ev.verifyCheck, Ev.extractPnl,
        Ev.write 2 "5" "9.5", Ev.rateSleep 2000], .ok ()) ∧
    rateBeforeEveryWrite (processWallet cexCfg cexEntry cexWorldC8).1 = false :=
  ⟨rfl, rfl⟩

/-- C8 amended: a successfully processed wallet executes exactly two
rate-limit pauses of the configured duration: one immediately after the
activities fetch and one immediately after the sheet write; no pause
separates the PnL fetch from the write, and neither fetch contains a
rate-limit pause internally. -/
theorem C8_two_pauses_amended (cfg : Config) (entry : WalletEntry) (w : WalletWorld)
    (wa av pv : String) (hw : entry.wallet = some wa) (hwa : wa ≠ "")
    (hnb : (truthy entry.activities && truthy entry.holdingsPnl) = false)
    (hA : (fetchActivities cfg wa w).result = .ok av)
    (hB : (fetchPnl cfg wa w).result = .ok pv)
    (hWr : w.writeOutcome = .ok ()) :
    processWallet cfg entry w =
      ((fetchActivities cfg wa w).events ++
        Ev.rateSleep cfg.rateLimitMs ::
          ((fetchPnl cfg wa w).events ++
            [Ev.write entry.rowIndex av pv, Ev.rateSleep cfg.rateLimitMs]),
       .ok ()) ∧
    countRate (fetchActivities cfg wa w).events = 0 ∧
    countRate (fetchPnl cfg wa w).events = 0 ∧
    countRate (processWallet cfg entry w).1 = 2 := by
  have h := processWallet_ok cfg entry w wa av pv hw hwa hnb hA hB hWr
  have hrA : ((fetchActivities cfg wa w).events).countP isRateSleepEv = 0 := by
    unfold fetchActivities
    exact countP_fetchGuarded isRateSleepEv _ cfg.maxRetries wa "solscan" w.solCapture
      (fun k => (step_countP_zero isRateSleepEv (fun u => rfl) rfl (fun l => rfl) rfl rfl
        wa (w.solWorlds k)).1)
      (fun ms => rfl) (fun a b => rfl)
  have hrB : ((fetchPnl cfg wa w).events).countP isRateSleepEv = 0 := by
    unfold fetchPnl
    exact countP_fetchGuarded isRateSleepEv _ cfg.maxRetries wa "jupiter" w.jupCapture
      (fun k => (step_countP_zero isRateSleepEv (fun u => rfl) rfl (fun l => rfl) rfl rfl
        wa (w.jupWorlds k)).2)
      (fun ms => rfl) (fun a b => rfl)
  refine ⟨h, hrA, hrB, ?_⟩
  rw [h]
  simp only [countRate, List.countP_append, List.countP_cons]
  rw [hrA, hrB]
  rfl

/-- Witness for the amended C8 at the concrete successful wallet. -/
theorem C8_two_pauses_amended_witness :
    processWallet cexCfg cexEntry cexWorldC8 =
      ((fetchActivities cexCfg "w1" cexWorldC8).events ++
        Ev.rateSleep cexCfg.rateLimitMs ::
          ((fetchPnl cexCfg "w1" cexWorldC8).events ++
            [Ev.write cexEntry.rowIndex "5" "9.5", Ev.rateSleep cexCfg.rateLimitMs]),
       .ok ()) ∧
    countRate (fetchActivities cexCfg "w1" cexWorldC8).events = 0 ∧
    countRate (fetchPnl cexCfg "w1" cexWorldC8).events = 0 ∧
    countRate (processWallet cexCfg cexEntry cexWorldC8).1 = 2 :=
  C8_two_pauses_amended cexCfg cexEntry cexWorldC8 "w1" "5" "9.5" rfl (by decide)
    rfl rfl rfl rfl

/-! ### Claim C9: a failing screenshot capture masks the original error -/

/-- C9 counterexample: the activities fetch exhausts with the Extraction
error, the screenshot capture itself fails, and the error propagated to
the caller is the capture error — the original extraction error is
masked, refuting the claim. -/
theorem C9_capture_masks_counterexample :
    (fetchActivities cfg1 "w1" cexWorldC9).result = .error (some "screenshot failed") ∧
    (withRetries (fun k => solscanStep "w1" (cexWorldC9.solWorlds k))
      cfg1.maxRetries).2.2 = .error (some solscanErrMsg) ∧
    "screenshot failed" ≠ solscanErrMsg :=
  ⟨rfl, rfl, by decide⟩

/-- C9 amended: when the retry wrapper exhausts with an error, a
succeeding capture logs the saved screenshot and the original error
propagates; a failing capture propagates the capture error instead,
masking the original, and emits no saved-screenshot log line. -/
theorem C9_capture_failure_masks_amended {α : Type}
    (task : Nat → List Ev × Except String α) (attempts : Nat)
    (wallet label : String) (e : Option String)
    (h : (withRetries task attempts).2.2 = .error e) :
    (fetchGuarded task attempts wallet label (.ok ())).result = .error e ∧
    (fetchGuarded task attempts wallet label (.ok ())).events =
      (withRetries task attempts).1 ++ [Ev.screenshotSaved wallet label] ∧
    (∀ ce, (fetchGuarded task attempts wallet label (.error ce)).result =
        .error (some ce) ∧
      (fetchGuarded task attempts wallet label (.error ce)).events =
        (withRetries task attempts).1) := by
  rcases hw : withRetries task attempts with ⟨evs, n, out⟩
  rw [hw] at h
  simp only at h
  subst h
  unfold fetchGuarded
  rw [hw]
  exact ⟨rfl, rfl, fun ce => ⟨rfl, rfl⟩⟩

/-- Witness for the amended C9: one failing attempt; a succeeding
capture propagates the original error, a failing capture replaces it. -/
theorem C9_capture_failure_masks_amended_witness :
    (fetchGuarded (pureTask (fun _ => (.error "x" : Except String String)))
      1 "w" "l" (.ok ())).result = .error (some "x") ∧
    (fetchGuarded (pureTask (fun _ => (.error "x" : Except String String)))
      1 "w" "l" (.error "shot")).result = .error (some "shot") := by
  have h := C9_capture_failure_masks_amended
    (pureTask (fun _ => (.error "x" : Except String String))) 1 "w" "l"
    (some "x") rfl
  exact ⟨h.1, (h.2.2 "shot").1⟩

end Whale
